import Mathlib

/-!
Verification of the core request-execution and resilience engine of a Go
client library for a brokerage REST API (package `tradier`).

The Go source is shallowly embedded: instants (`time.Time`) are integers
counting nanoseconds since the zero instant (year 1), durations
(`time.Duration`) are integer nanosecond counts, `int64` parsing reports an
error outside the 64-bit range exactly as `strconv.ParseInt` does, and
fallible operations return `Except`/`Option`.  Side-effecting collaborators
(the HTTP transport, the backoff policy, the wall clock) are passed in as
explicit oracles, and the retry loop of `Client.do` is run on explicit
state with a fuel argument that mirrors its `i <= maxRetries` bound.
-/

namespace Tradier

/-! ## Time model

`GoTime` is a `time.Time` as nanoseconds since the zero instant (January 1,
year 1, UTC); the zero value of `time.Time` is `0`.  `GoDuration` is a
`time.Duration`, i.e. nanoseconds.  The Unix epoch 1970-01-01T00:00:00 UTC
lies 62135596800 seconds after the zero instant. -/

abbrev GoTime := Int
abbrev GoDuration := Int

def nsPerSec : Int := 1000000000

def unixEpochSec : Int := 62135596800

/-- `time.Time{}`: the zero instant. -/
def zeroTime : GoTime := 0

/-- `time.Unix(sec, 0)`: the instant `sec` seconds after the Unix epoch. -/
def timeUnix (sec : Int) : GoTime := (unixEpochSec + sec) * nsPerSec

/-! ## Go standard-library string helpers

`strings.HasPrefix`, `strings.Fields` and `strconv.ParseInt(s, 10, 64)`,
embedded byte-for-byte for the ASCII strings this package feeds them. -/

/-- `unicode.IsSpace` restricted to ASCII, which is what `strings.Fields`
splits on for the strings appearing here. -/
def goIsSpace : Char → Bool
  | ' ' | '\t' | '\n' | '\x0b' | '\x0c' | '\r' => true
  | _ => false

/-- Worker for `strings.Fields`: walks the characters accumulating the
current (reversed) field in `acc`. -/
def fieldsAux : List Char → List Char → List String
  | [], acc => if acc.isEmpty then [] else [String.mk acc.reverse]
  | c :: cs, acc =>
    cond (goIsSpace c)
      (if acc.isEmpty then fieldsAux cs [] else String.mk acc.reverse :: fieldsAux cs [])
      (fieldsAux cs (c :: acc))

/-- `strings.Fields`: splits around runs of whitespace, dropping empties. -/
def goFields (s : String) : List String := fieldsAux s.toList []

/-- `strings.HasPrefix`. -/
def goStartsWith (s pre : String) : Bool := pre.toList.isPrefixOf s.toList

/-- Digit accumulator of `strconv.ParseUint` in base 10 (arbitrary
precision here; the 64-bit range check is applied afterwards, which is
observationally the cutoff/overflow check Go performs inline). -/
def parseDigitsAux : Nat → List Char → Option Nat
  | acc, [] => some acc
  | acc, c :: cs =>
    if c.isDigit then parseDigitsAux (acc * 10 + (c.toNat - 48)) cs else none

/-- Unsigned base-10 digit-string parser; fails on the empty string and on
any non-digit character. -/
def parseDigits : List Char → Option Nat
  | [] => none
  | l => parseDigitsAux 0 l

def maxInt64 : Nat := 9223372036854775807

/-- `strconv.ParseInt(s, 10, 64)`: optional sign, then at least one digit,
nothing else; errors outside the `int64` range. -/
def goParseInt64 (s : String) : Option Int :=
  match s.toList with
  | [] => none
  | c :: rest =>
    if c = '+' then
      (parseDigits rest).bind fun n => if n ≤ maxInt64 then some (n : Int) else none
    else if c = '-' then
      (parseDigits rest).bind fun n => if n ≤ maxInt64 + 1 then some (-(n : Int)) else none
    else
      (parseDigits (c :: rest)).bind fun n => if n ≤ maxInt64 then some (n : Int) else none

/-! ## rate_limit.go -/

/-- `parseQuotaViolationExpiration` from rate_limit.go: if `body` lacks the
literal prefix `"Quota Violation"`, or its last whitespace-delimited field
does not parse as an `int64`, the zero instant; else `time.Unix(ms/1000, 0)`
for the parsed millisecond count `ms` (Go division truncates: `Int.tdiv`).
The `parts[len(parts)-1]` index cannot be out of range when the prefix is
present, since the prefix contains non-space characters; `getLastD` mirrors
that access. -/
def parseQuotaViolationExpiration (body : String) : GoTime :=
  if ¬ goStartsWith body "Quota Violation" then zeroTime
  else
    match goParseInt64 ((goFields body).getLastD "") with
    | none => zeroTime
    | some ms => timeUnix (ms.tdiv 1000)

/-- The input shape accepted by the quota-text parser: the literal prefix
`"Quota Violation"`, and the last whitespace-delimited token parses as an
`int64`. -/
def isQuotaShape (body : String) : Prop :=
  goStartsWith body "Quota Violation" = true ∧
    (goParseInt64 ((goFields body).getLastD "")).isSome = true

instance (body : String) : Decidable (isQuotaShape body) := by
  unfold isQuotaShape; infer_instance

-- sanity checks on concrete inputs (mirroring rate_limit_test.go)
example : parseQuotaViolationExpiration "" = zeroTime := by decide
example : parseQuotaViolationExpiration "Quota Violation not a number" = zeroTime := by decide
example :
    parseQuotaViolationExpiration "Quota Violation expires in 5000" = timeUnix 5 := by decide

/-! ## Decimal-numeral round trip

`Nat.repr` (via `Nat.toDigitsCore`) emits decimal digit characters, and
`parseDigitsAux` reads them back, so the embedded `strconv.ParseInt`
recovers any number written with `Nat.repr`. -/

theorem digitChar_spec {d : Nat} (h : d < 10) :
    (Nat.digitChar d).isDigit = true ∧ (Nat.digitChar d).toNat - 48 = d ∧
      goIsSpace (Nat.digitChar d) = false ∧ Nat.digitChar d ≠ '+' ∧ Nat.digitChar d ≠ '-' := by
  interval_cases d <;> exact ⟨by decide, by decide, by decide, by decide, by decide⟩

theorem parseDigitsAux_digitChar (a : Nat) {d : Nat} (h : d < 10) (cs : List Char) :
    parseDigitsAux a (Nat.digitChar d :: cs) = parseDigitsAux (a * 10 + d) cs := by
  have hd := digitChar_spec h
  simp [parseDigitsAux, hd.1, hd.2.1]

theorem parseDigitsAux_toDigitsCore :
    ∀ (fuel n : Nat), n < 10 ^ fuel → ∀ ds : List Char,
      parseDigitsAux 0 (Nat.toDigitsCore 10 fuel n ds) = parseDigitsAux n ds := by
  intro fuel
  induction fuel with
  | zero =>
    intro n hn ds
    interval_cases n
    rfl
  | succ fuel ih =>
    intro n hn ds
    by_cases hdiv : n / 10 = 0
    · have hlt : n < 10 := by omega
      have : Nat.toDigitsCore 10 (fuel + 1) n ds = Nat.digitChar (n % 10) :: ds := by
        simp [Nat.toDigitsCore, hdiv]
      rw [this, parseDigitsAux_digitChar 0 (Nat.mod_lt _ (by norm_num)) ds]
      have : n % 10 = n := Nat.mod_eq_of_lt hlt
      rw [Nat.zero_mul, Nat.zero_add, this]
    · have hstep : Nat.toDigitsCore 10 (fuel + 1) n ds =
          Nat.toDigitsCore 10 fuel (n / 10) (Nat.digitChar (n % 10) :: ds) := by
        simp [Nat.toDigitsCore, hdiv]
      have hfuel : n / 10 < 10 ^ fuel := by
        have hpow : 10 ^ (fuel + 1) = 10 ^ fuel * 10 := by ring
        rw [hpow] at hn
        omega
      rw [hstep, ih (n / 10) hfuel, parseDigitsAux_digitChar _ (Nat.mod_lt _ (by norm_num))]
      have : n / 10 * 10 + n % 10 = n := by omega
      rw [this]

/-- Every character emitted by `Nat.toDigitsCore 10` in front of `ds` is a
decimal digit. -/
theorem toDigitsCore_head_digit :
    ∀ (fuel n : Nat), n < 10 ^ fuel → 1 ≤ fuel → ∀ ds : List Char,
      ∃ d rest, Nat.toDigitsCore 10 fuel n ds = Nat.digitChar d :: rest ∧ d < 10 := by
  intro fuel
  induction fuel with
  | zero => intro n _ h1; omega
  | succ fuel ih =>
    intro n hn _ ds
    by_cases hdiv : n / 10 = 0
    · refine ⟨n % 10, ds, ?_, Nat.mod_lt _ (by norm_num)⟩
      simp [Nat.toDigitsCore, hdiv]
    · have hstep : Nat.toDigitsCore 10 (fuel + 1) n ds =
          Nat.toDigitsCore 10 fuel (n / 10) (Nat.digitChar (n % 10) :: ds) := by
        simp [Nat.toDigitsCore, hdiv]
      have hfuel1 : 1 ≤ fuel := by
        rcases Nat.eq_zero_or_pos fuel with h0 | h1
        · subst h0
          have : n < 10 := by simpa using hn
          omega
        · exact h1
      have hfuel : n / 10 < 10 ^ fuel := by
        have hpow : 10 ^ (fuel + 1) = 10 ^ fuel * 10 := by ring
        rw [hpow] at hn
        omega
      obtain ⟨d, rest, heq, hd⟩ := ih (n / 10) hfuel hfuel1 (Nat.digitChar (n % 10) :: ds)
      exact ⟨d, rest, hstep.trans heq, hd⟩

theorem nat_lt_ten_pow_succ (n : Nat) : n < 10 ^ (n + 1) :=
  lt_of_lt_of_le (Nat.lt_pow_self (by norm_num) n) (Nat.pow_le_pow_right (by norm_num) (Nat.le_succ n))

/-- `Nat.toDigitsCore` only prepends characters to its accumulator. -/
theorem toDigitsCore_append :
    ∀ (fuel n : Nat) (ds : List Char),
      Nat.toDigitsCore 10 fuel n ds = Nat.toDigitsCore 10 fuel n [] ++ ds := by
  intro fuel
  induction fuel with
  | zero => intro n ds; simp [Nat.toDigitsCore]
  | succ fuel ih =>
    intro n ds
    by_cases hdiv : n / 10 = 0
    · simp [Nat.toDigitsCore, hdiv]
    · have h1 : Nat.toDigitsCore 10 (fuel + 1) n ds =
          Nat.toDigitsCore 10 fuel (n / 10) (Nat.digitChar (n % 10) :: ds) := by
        simp [Nat.toDigitsCore, hdiv]
      have h2 : Nat.toDigitsCore 10 (fuel + 1) n [] =
          Nat.toDigitsCore 10 fuel (n / 10) [Nat.digitChar (n % 10)] := by
        simp [Nat.toDigitsCore, hdiv]
      rw [h1, h2, ih (n / 10) (Nat.digitChar (n % 10) :: ds),
        ih (n / 10) [Nat.digitChar (n % 10)], List.append_assoc]
      rfl

/-- Characters produced by `Nat.toDigitsCore 10` over a space-free
accumulator are not whitespace. -/
theorem toDigitsCore_nonspace :
    ∀ (fuel n : Nat) (ds : List Char), (∀ c ∈ ds, goIsSpace c = false) →
      ∀ c ∈ Nat.toDigitsCore 10 fuel n ds, goIsSpace c = false := by
  intro fuel
  induction fuel with
  | zero => intro n ds hds; simpa [Nat.toDigitsCore] using hds
  | succ fuel ih =>
    intro n ds hds c hc
    have hdigit : goIsSpace (Nat.digitChar (n % 10)) = false :=
      (digitChar_spec (Nat.mod_lt _ (by norm_num))).2.2.1
    by_cases hdiv : n / 10 = 0
    · simp only [Nat.toDigitsCore, hdiv, if_pos] at hc
      rcases List.mem_cons.mp hc with h | h
      · exact h ▸ hdigit
      · exact hds c h
    · have hstep : Nat.toDigitsCore 10 (fuel + 1) n ds =
          Nat.toDigitsCore 10 fuel (n / 10) (Nat.digitChar (n % 10) :: ds) := by
        simp [Nat.toDigitsCore, hdiv]
      rw [hstep] at hc
      refine ih (n / 10) _ ?_ c hc
      intro c' hc'
      rcases List.mem_cons.mp hc' with h | h
      · exact h ▸ hdigit
      · exact hds c' h

/-- Reduction of `goParseInt64` on a string whose character list is known. -/
theorem goParseInt64_cons (c : Char) (rest : List Char) (s : String) (h : s.toList = c :: rest) :
    goParseInt64 s =
      if c = '+' then
        (parseDigits rest).bind fun n => if n ≤ maxInt64 then some (n : Int) else none
      else if c = '-' then
        (parseDigits rest).bind fun n => if n ≤ maxInt64 + 1 then some (-(n : Int)) else none
      else
        (parseDigits (c :: rest)).bind fun n => if n ≤ maxInt64 then some (n : Int) else none := by
  rw [goParseInt64, h]

/-- The embedded `strconv.ParseInt` reads back `Nat.repr T` with a `"000"`
suffix as `T * 1000`, provided that fits in an `int64`. -/
theorem goParseInt64_repr_thousand (T : Nat) (hmax : T * 1000 ≤ maxInt64) :
    goParseInt64 (String.mk ((Nat.repr T).toList ++ ['0', '0', '0'])) = some ((T : Int) * 1000) := by
  have hrepr : (Nat.repr T).toList = Nat.toDigitsCore 10 (T + 1) T [] := rfl
  have happ : (Nat.repr T).toList ++ ['0', '0', '0'] =
      Nat.toDigitsCore 10 (T + 1) T ['0', '0', '0'] := by
    rw [hrepr, ← toDigitsCore_append]
  obtain ⟨d, rest, hshape, hd⟩ :=
    toDigitsCore_head_digit (T + 1) T (nat_lt_ten_pow_succ T) (Nat.le_add_left 1 T) ['0', '0', '0']
  have hds := digitChar_spec hd
  have hparse : parseDigitsAux 0 (Nat.toDigitsCore 10 (T + 1) T ['0', '0', '0']) =
      some (T * 1000) := by
    rw [parseDigitsAux_toDigitsCore (T + 1) T (nat_lt_ten_pow_succ T)]
    simp [parseDigitsAux]
    ring
  have htoList : (String.mk ((Nat.repr T).toList ++ ['0', '0', '0'])).toList =
      Nat.digitChar d :: rest := by
    rw [show (String.mk ((Nat.repr T).toList ++ ['0', '0', '0'])).toList =
      (Nat.repr T).toList ++ ['0', '0', '0'] from rfl, happ, hshape]
  rw [goParseInt64_cons _ _ _ htoList]
  rw [if_neg hds.2.2.2.1, if_neg hds.2.2.2.2]
  have : parseDigits (Nat.digitChar d :: rest) = parseDigitsAux 0 (Nat.digitChar d :: rest) := by
    rfl
  rw [this, ← hshape, hparse]
  simp only [Option.some_bind]
  rw [if_pos hmax]
  norm_cast

/-! ## `strings.Fields` over a prefix followed by a space and a token -/

/-- A run of non-space characters forms a single trailing field. -/
theorem fieldsAux_nospace :
    ∀ (l : List Char), l ≠ [] → (∀ c ∈ l, goIsSpace c = false) →
      ∀ acc, fieldsAux l acc = [String.mk (acc.reverse ++ l)] := by
  intro l
  induction l with
  | nil => intro h; exact absurd rfl h
  | cons c cs ih =>
    intro _ hns acc
    have hc : goIsSpace c = false := hns c (List.mem_cons_self c cs)
    have hstep : fieldsAux (c :: cs) acc = fieldsAux cs (c :: acc) := by
      simp [fieldsAux, hc]
    rw [hstep]
    rcases eq_or_ne cs [] with hnil | hne
    · subst hnil
      simp [fieldsAux]
    · rw [ih hne (fun c' h => hns c' (List.mem_cons_of_mem _ h)) (c :: acc)]
      simp

/-- `strings.Fields` of `prefix ++ " " ++ token`: when the token is a
nonempty run of non-space characters, the last field is the token,
whatever the prefix and whatever default the lookup supplies. -/
theorem fieldsAux_last :
    ∀ (p l : List Char), l ≠ [] → (∀ c ∈ l, goIsSpace c = false) →
      ∀ acc d, (fieldsAux (p ++ ' ' :: l) acc).getLastD d = String.mk l := by
  intro p
  induction p with
  | nil =>
    intro l hne hns acc d
    have hl : fieldsAux l [] = [String.mk l] := by
      simpa using fieldsAux_nospace l hne hns []
    by_cases hacc : acc.isEmpty
    · simp [fieldsAux, hacc, hl, show goIsSpace ' ' = true from rfl]
    · simp [fieldsAux, hacc, hl, show goIsSpace ' ' = true from rfl]
  | cons c p ih =>
    intro l hne hns acc d
    by_cases hc : goIsSpace c = true
    · by_cases hacc : acc.isEmpty
      · have : fieldsAux (c :: p ++ ' ' :: l) acc = fieldsAux (p ++ ' ' :: l) [] := by
          simp [fieldsAux, hc, hacc]
        rw [List.cons_append] at this ⊢
        rw [this, ih l hne hns [] d]
      · have : fieldsAux (c :: p ++ ' ' :: l) acc =
            String.mk acc.reverse :: fieldsAux (p ++ ' ' :: l) [] := by
          simp [fieldsAux, hc, hacc]
        rw [List.cons_append] at this ⊢
        rw [this, List.getLastD_cons, ih l hne hns [] _]
    · have hc' : goIsSpace c = false := by
        cases h : goIsSpace c
        · rfl
        · exact absurd h hc
      have : fieldsAux (c :: p ++ ' ' :: l) acc = fieldsAux (p ++ ' ' :: l) (c :: acc) := by
        simp [fieldsAux, hc']
      rw [List.cons_append] at this ⊢
      rw [this, ih l hne hns (c :: acc) d]

theorem isPrefixOf_append_self : ∀ (p t : List Char), p.isPrefixOf (p ++ t) = true := by
  intro p t
  induction p with
  | nil => simp
  | cons c cs ih => simp [List.isPrefixOf, ih]

/-! ## Claim C6: the quota-text parser -/

/-- The decomposition of the claim's input string into a space-free prefix,
a space, and the numeric token. -/
theorem quotaString_data (T : Nat) :
    ("Quota Violation expires in " ++ Nat.repr T ++ "000").data =
      "Quota Violation expires in".data ++ ' ' :: ((Nat.repr T).data ++ ['0', '0', '0']) := by
  rw [String.data_append, String.data_append,
    show "Quota Violation expires in ".data = "Quota Violation expires in".data ++ [' '] from rfl,
    show "000".data = ['0', '0', '0'] from rfl, List.append_assoc, List.append_assoc]
  rfl

/-- C6, amended: an input not of the quota-violation shape (prefix
`"Quota Violation"`, last whitespace token an `int64` numeral) parses to the
zero instant; and for every positive `T` whose millisecond value `T * 1000`
fits in an `int64`, `"Quota Violation expires in <T>000"` parses to the
instant `T` seconds after the Unix epoch.  (The original claim, for every
positive `T`, fails once `T * 1000` overflows `int64`:
see the counterexample.) -/
theorem quotaParser_spec :
    (∀ s : String, ¬ isQuotaShape s → parseQuotaViolationExpiration s = zeroTime) ∧
    (∀ T : Nat, 0 < T → T * 1000 ≤ maxInt64 →
      parseQuotaViolationExpiration ("Quota Violation expires in " ++ Nat.repr T ++ "000") =
        timeUnix T) := by
  constructor
  · intro s hshape
    unfold parseQuotaViolationExpiration
    by_cases hpre : goStartsWith s "Quota Violation" = true
    · rw [if_neg (by simp [hpre])]
      have hnone : goParseInt64 ((goFields s).getLastD "") = none := by
        rcases h : goParseInt64 ((goFields s).getLastD "") with _ | v
        · rfl
        · exact absurd ⟨hpre, by rw [h]; rfl⟩ hshape
      rw [hnone]
    · rw [if_pos (by simpa using hpre)]
  · intro T hT hbound
    have hl_ne : (Nat.repr T).data ++ ['0', '0', '0'] ≠ [] := by simp
    have hl_ns : ∀ c ∈ (Nat.repr T).data ++ ['0', '0', '0'], goIsSpace c = false := by
      intro c hc
      rcases List.mem_append.mp hc with h | h
      · exact toDigitsCore_nonspace (T + 1) T [] (by intro c h; cases h) c h
      · fin_cases h <;> rfl
    have hpre : goStartsWith ("Quota Violation expires in " ++ Nat.repr T ++ "000")
        "Quota Violation" = true := by
      unfold goStartsWith
      rw [show ("Quota Violation expires in " ++ Nat.repr T ++ "000").toList =
          ("Quota Violation expires in " ++ Nat.repr T ++ "000").data from rfl,
        quotaString_data,
        show "Quota Violation expires in".data =
          "Quota Violation".data ++ " expires in".data from rfl,
        List.append_assoc]
      exact isPrefixOf_append_self _ _
    have hlast : (goFields ("Quota Violation expires in " ++ Nat.repr T ++ "000")).getLastD "" =
        String.mk ((Nat.repr T).data ++ ['0', '0', '0']) := by
      unfold goFields
      rw [show ("Quota Violation expires in " ++ Nat.repr T ++ "000").toList =
          ("Quota Violation expires in " ++ Nat.repr T ++ "000").data from rfl,
        quotaString_data]
      exact fieldsAux_last _ _ hl_ne hl_ns [] ""
    have hparse : goParseInt64 (String.mk ((Nat.repr T).data ++ ['0', '0', '0'])) =
        some ((T : Int) * 1000) := goParseInt64_repr_thousand T hbound
    unfold parseQuotaViolationExpiration
    rw [if_neg (by simp [hpre]), hlast, hparse]
    have htdiv : ((T : Int) * 1000).tdiv 1000 = (T : Int) := by
      rw [Int.tdiv_eq_ediv (by positivity) (by norm_num)]
      exact Int.mul_ediv_cancel _ (by norm_num)
    show timeUnix (((T : Int) * 1000).tdiv 1000) = timeUnix (T : Int)
    rw [htdiv]

/-- C6 witness: `quotaParser_spec` applied at the concrete inputs
`"totally unrelated"` and `T = 7`. -/
theorem quotaParser_spec_witness :
    parseQuotaViolationExpiration "totally unrelated" = zeroTime ∧
    parseQuotaViolationExpiration "Quota Violation expires in 7000" = timeUnix 7 := by
  refine ⟨quotaParser_spec.1 "totally unrelated" (by decide), ?_⟩
  have h := quotaParser_spec.2 7 (by norm_num) (by decide)
  rwa [show ("Quota Violation expires in " ++ Nat.repr 7 ++ "000" : String) =
    "Quota Violation expires in 7000" from rfl] at h

/-- C6 counterexample: at `T = 2 ^ 62` the millisecond value `T * 1000`
overflows `int64`, `strconv.ParseInt` fails, and the parser returns the zero
instant, not the instant `T` seconds after the epoch — refuting the claim's
"for every positive integer T" as stated. -/
theorem quotaParser_counterexample :
    ("Quota Violation expires in " ++ Nat.repr 4611686018427387904 ++ "000" : String) =
      "Quota Violation expires in 4611686018427387904000" ∧
    parseQuotaViolationExpiration "Quota Violation expires in 4611686018427387904000" =
      zeroTime ∧
    zeroTime ≠ timeUnix 4611686018427387904 := by
  exact ⟨rfl, by decide, by decide⟩

/-! ## The request executor: `Client.do`

The structured-fault shape.  `TradierError`/its nested `Fault` are declared
outside src/ but their observable fields are fixed by the call sites in
src/: `HttpStatusCode`, `Fault.FaultString` (free text) and
`Fault.Detail.ErrorCode` (machine-readable code).  -/

structure Fault where
  faultString : String
  errorCode : String
deriving DecidableEq

structure TradierError where
  httpStatusCode : Nat
  fault : Fault
deriving DecidableEq

/-- `ErrBodyBufferOverflow`: the oversized-request fault code. -/
def ErrBodyBufferOverflow : String := "protocol.http.TooBigBody"

/-- An error escaping `Client.do` or the decode step: either a decoded
structured fault (a `TradierError` value, as produced for non-200 responses),
or any other Go `error` (transport failures, decode failures), identified by
its message.  The `err.(TradierError)` type assertion in `GetTimeSales`
succeeds exactly on the `tradier` constructor. -/
inductive GoError where
  | tradier (e : TradierError)
  | plain (msg : String)
deriving DecidableEq

/-- What one `tc.client.Do(req)` call yields: a transport-level failure with
no response, or a response with its status plus how the error body would
decode — `decoded = some f` iff `json.Unmarshal(respBody, &tradierErr)`
succeeds, and `rawBody` is the raw body text stored into
`Fault.FaultString` when it does not.  (Building the signed request and
reading the body are assumed not to fail; those paths carry no logic.) -/
inductive HttpReply where
  | failure (msg : String)
  | response (status : Nat) (decoded : Option Fault) (rawBody : String)

/-- `backoff.Stop` (-1ns) from the backoff package. -/
def backoffStop : GoDuration := -1

/-- The mutable state of `Client.do`'s loop: attempt index `i`, how many
times `BackoffPolicy.NextBackOff` has been consumed, the current `sleep`
variable, the sleeps actually performed so far (most recent first), and the
current `resp`/`err` variables. -/
structure LoopSt where
  i : Nat
  boIdx : Nat
  sleep : GoDuration
  sleeps : List GoDuration
  resp : Option Nat
  err : Option GoError

/-- What `Client.do` returns, together with the observable effects: number
of attempts performed, the sleeps executed in order, the final `resp`
(modelled by its status code) and the final `err`. -/
structure DoResult where
  attempts : Nat
  sleeps : List GoDuration
  resp : Option Nat
  err : Option GoError
deriving DecidableEq

/-- One-for-one embedding of the `for i := 0; i <= maxRetries; i++` loop of
`Client.do`.  `att i` is the transport's behaviour on attempt `i`, `bo k`
the `k`-th value of `BackoffPolicy.NextBackOff`, `now i` the wall clock
during attempt `i`'s error classification.  `fuel` is `maxRetries + 1 - i`,
so running out of fuel is exactly the loop condition failing, and the loop
then returns the saved `resp` and `err`. -/
def doAux (att : Nat → HttpReply) (bo : Nat → GoDuration) (now : Nat → GoTime)
    (maxRetries : Nat) : Nat → LoopSt → DoResult
  | 0, st => ⟨st.i, st.sleeps.reverse, st.resp, st.err⟩
  | fuel + 1, st =>
    match att st.i with
    | .failure msg =>
      -- transport error: log, sleep = backoff.NextBackOff()
      let sl := bo st.boIdx
      doAux att bo now maxRetries fuel
        { i := st.i + 1, boIdx := st.boIdx + 1, sleep := sl,
          sleeps := if st.i + 1 ≤ maxRetries ∧ sl ≠ backoffStop
            then sl :: st.sleeps else st.sleeps,
          resp := none, err := some (.plain msg) }
    | .response status decoded raw =>
      if status = 200 then
        -- err == nil && resp.StatusCode == http.StatusOK: break
        ⟨st.i + 1, st.sleeps.reverse, some status, none⟩
      else
        match decoded with
        | some f =>
          -- "We extracted an error message, don't retry."
          ⟨st.i + 1, st.sleeps.reverse, some status, some (.tradier ⟨status, f⟩)⟩
        | none =>
          let e : GoError := .tradier ⟨status, ⟨raw, ""⟩⟩
          let expiry := parseQuotaViolationExpiration raw
          let sl := if now st.i + st.sleep < expiry
            then expiry - now st.i + nsPerSec else bo st.boIdx
          let boIdx' := if now st.i + st.sleep < expiry then st.boIdx else st.boIdx + 1
          doAux att bo now maxRetries fuel
            { i := st.i + 1, boIdx := boIdx', sleep := sl,
              sleeps := if st.i + 1 ≤ maxRetries ∧ sl ≠ backoffStop
                then sl :: st.sleeps else st.sleeps,
              resp := some status, err := some e }

/-- `Client.do(method, url, body, maxRetries)` under the oracles. -/
def doGo (att : Nat → HttpReply) (bo : Nat → GoDuration) (now : Nat → GoTime)
    (maxRetries : Nat) : DoResult :=
  doAux att bo now maxRetries (maxRetries + 1) ⟨0, 0, 0, [], none, none⟩

/-! ## Claim C1: a decoded structured fault is terminal -/

/-- C1: whenever an attempt yields a non-200 response whose body decodes as
the structured fault shape, `Client.do` returns that fault at once — no
further attempt, no new sleep — whatever fuel (retry budget) remains; in
particular with the fault on the very first attempt, the call performs
exactly one attempt, sleeps never, and returns the decoded fault. -/
theorem do_terminal_fault :
    (∀ (att : Nat → HttpReply) (bo : Nat → GoDuration) (now : Nat → GoTime)
      (maxRetries fuel : Nat) (st : LoopSt) (status : Nat) (f : Fault) (raw : String),
      att st.i = .response status (some f) raw → status ≠ 200 →
      doAux att bo now maxRetries (fuel + 1) st =
        ⟨st.i + 1, st.sleeps.reverse, some status, some (.tradier ⟨status, f⟩)⟩) ∧
    (∀ (att : Nat → HttpReply) (bo : Nat → GoDuration) (now : Nat → GoTime)
      (maxRetries : Nat) (status : Nat) (f : Fault) (raw : String),
      att 0 = .response status (some f) raw → status ≠ 200 →
      doGo att bo now maxRetries = ⟨1, [], some status, some (.tradier ⟨status, f⟩)⟩) := by
  have step : ∀ (att : Nat → HttpReply) (bo : Nat → GoDuration) (now : Nat → GoTime)
      (maxRetries fuel : Nat) (st : LoopSt) (status : Nat) (f : Fault) (raw : String),
      att st.i = .response status (some f) raw → status ≠ 200 →
      doAux att bo now maxRetries (fuel + 1) st =
        ⟨st.i + 1, st.sleeps.reverse, some status, some (.tradier ⟨status, f⟩)⟩ := by
    intro att bo now maxRetries fuel st status f raw hatt hstatus
    simp [doAux, hatt, hstatus]
  refine ⟨step, ?_⟩
  intro att bo now maxRetries status f raw hatt hstatus
  have h := step att bo now maxRetries maxRetries ⟨0, 0, 0, [], none, none⟩ status f raw
    hatt hstatus
  simpa [doGo] using h

/-- C1 witness: a 400 response decoding as a structured fault on the first
attempt, with three retries allowed, terminates after one attempt. -/
theorem do_terminal_fault_witness :
    doGo (fun _ => .response 400 (some ⟨"Invalid parameter", "Validation"⟩) "ignored")
        (fun _ => 1000000000) (fun _ => 0) 3 =
      ⟨1, [], some 400, some (.tradier ⟨400, ⟨"Invalid parameter", "Validation"⟩⟩)⟩ :=
  do_terminal_fault.2 _ _ _ 3 400 ⟨"Invalid parameter", "Validation"⟩ "ignored" rfl
    (by decide)

/-! ## Claim C2: transport errors retry until the budget is exhausted -/

/-- If the transport fails at every attempt, each loop iteration records a
transport error and continues; the run out of `st` performs exactly `fuel`
further iterations and keeps the last transport error. -/
theorem doAux_transport_all (att : Nat → HttpReply) (bo : Nat → GoDuration)
    (now : Nat → GoTime) (maxRetries : Nat) (msg : Nat → String)
    (hatt : ∀ i, att i = .failure (msg i)) :
    ∀ (fuel : Nat) (st : LoopSt),
      (doAux att bo now maxRetries (fuel + 1) st).attempts = st.i + fuel + 1 ∧
      (doAux att bo now maxRetries (fuel + 1) st).err = some (.plain (msg (st.i + fuel))) ∧
      (doAux att bo now maxRetries (fuel + 1) st).resp = none := by
  intro fuel
  induction fuel with
  | zero =>
    intro st
    simp [doAux, hatt st.i]
  | succ fuel ih =>
    intro st
    have hstep : doAux att bo now maxRetries (fuel + 1 + 1) st =
        doAux att bo now maxRetries (fuel + 1)
          (⟨st.i + 1, st.boIdx + 1, bo st.boIdx,
            (if st.i + 1 ≤ maxRetries ∧ bo st.boIdx ≠ backoffStop
              then bo st.boIdx :: st.sleeps else st.sleeps),
            none, some (.plain (msg st.i))⟩ : LoopSt) := by
      simp [doAux, hatt st.i]
    rw [hstep]
    obtain ⟨h1, h2, h3⟩ := ih (⟨st.i + 1, st.boIdx + 1, bo st.boIdx,
      (if st.i + 1 ≤ maxRetries ∧ bo st.boIdx ≠ backoffStop
        then bo st.boIdx :: st.sleeps else st.sleeps),
      none, some (.plain (msg st.i))⟩ : LoopSt)
    refine ⟨?_, ?_, h3⟩
    · rw [h1]
      show st.i + 1 + fuel + 1 = st.i + (fuel + 1) + 1
      omega
    · rw [h2]
      show some (GoError.plain (msg (st.i + 1 + fuel))) =
        some (GoError.plain (msg (st.i + (fuel + 1))))
      have hidx : st.i + 1 + fuel = st.i + (fuel + 1) := by omega
      rw [hidx]

/-- C2: with a transport that fails on every attempt, `Client.do` performs
exactly `maxRetries + 1` attempts and returns (no response and) the last
attempt's transport error. -/
theorem do_transport_exhausts (att : Nat → HttpReply) (bo : Nat → GoDuration)
    (now : Nat → GoTime) (maxRetries : Nat) (msg : Nat → String)
    (hatt : ∀ i, att i = .failure (msg i)) :
    (doGo att bo now maxRetries).attempts = maxRetries + 1 ∧
    (doGo att bo now maxRetries).err = some (.plain (msg maxRetries)) ∧
    (doGo att bo now maxRetries).resp = none := by
  have h := doAux_transport_all att bo now maxRetries msg hatt maxRetries
    ⟨0, 0, 0, [], none, none⟩
  simpa [doGo] using h

/-- C2 witness: a transport refusing every connection, with `maxRetries = 2`,
yields three attempts and the final transport error. -/
theorem do_transport_exhausts_witness :
    (doGo (fun _ => .failure "connection refused") (fun _ => 1000000000) (fun _ => 0)
        2).attempts = 3 ∧
    (doGo (fun _ => .failure "connection refused") (fun _ => 1000000000) (fun _ => 0)
        2).err = some (.plain "connection refused") ∧
    (doGo (fun _ => .failure "connection refused") (fun _ => 1000000000) (fun _ => 0)
        2).resp = none :=
  do_transport_exhausts _ _ _ 2 (fun _ => "connection refused") (fun _ => rfl)

/-! ## Claim C7: quota-aware sleep on undecodable non-200 bodies -/

/-- C7: at any attempt receiving a non-200 response whose body fails
structured-fault decoding, the loop proceeds with sleep set to
`(expiry - now) + 1s` when the quota expiry parsed from the raw body lies
strictly after `now` plus the currently planned sleep, and to the backoff
policy's next delay otherwise (consuming a backoff tick only in the latter
case); the raw text is stored as the fault's free-text field. -/
theorem do_quota_sleep (att : Nat → HttpReply) (bo : Nat → GoDuration) (now : Nat → GoTime)
    (maxRetries fuel : Nat) (st : LoopSt) (status : Nat) (raw : String)
    (hatt : att st.i = .response status none raw) (hstatus : status ≠ 200) :
    doAux att bo now maxRetries (fuel + 1) st =
      doAux att bo now maxRetries fuel
        { i := st.i + 1,
          boIdx := if now st.i + st.sleep < parseQuotaViolationExpiration raw
            then st.boIdx else st.boIdx + 1,
          sleep := if now st.i + st.sleep < parseQuotaViolationExpiration raw
            then parseQuotaViolationExpiration raw - now st.i + nsPerSec
            else bo st.boIdx,
          sleeps := if st.i + 1 ≤ maxRetries ∧
              (if now st.i + st.sleep < parseQuotaViolationExpiration raw
                then parseQuotaViolationExpiration raw - now st.i + nsPerSec
                else bo st.boIdx) ≠ backoffStop
            then (if now st.i + st.sleep < parseQuotaViolationExpiration raw
                then parseQuotaViolationExpiration raw - now st.i + nsPerSec
                else bo st.boIdx) :: st.sleeps
            else st.sleeps,
          resp := some status,
          err := some (.tradier ⟨status, ⟨raw, ""⟩⟩) } := by
  simp [doAux, hatt, hstatus]

/-- C7 witness: one quota-violation response at attempt 1 with planned sleep
5ns; the parsed expiry (7s past the epoch) lies after `now + 5ns`, so the
next sleep is `expiry - now + 1s = 8s`, recorded when the loop continues. -/
theorem do_quota_sleep_witness :
    doAux (fun _ => .response 429 none "Quota Violation expires in 7000") (fun _ => 2)
        (fun _ => timeUnix 0) 5 1 ⟨1, 0, 5, [], none, none⟩ =
      ⟨2, [8000000000], some 429,
        some (.tradier ⟨429, ⟨"Quota Violation expires in 7000", ""⟩⟩)⟩ := by
  have h := do_quota_sleep (fun _ => .response 429 none "Quota Violation expires in 7000")
    (fun _ => 2) (fun _ => timeUnix 0) 5 0 ⟨1, 0, 5, [], none, none⟩ 429
    "Quota Violation expires in 7000" rfl (by decide)
  rw [h]
  decide

/-! ## JSON payloads and the one-or-many normalizers

A JSON value, as far as `encoding/json` decoding behaviour matters here.  A
raw byte payload is an `Option Json`: `none` stands for bytes that are not
syntactically valid JSON (every `json.Unmarshal` on them fails with a syntax
error), `some j` for bytes parsing to the value `j`. -/

inductive Json where
  | null
  | bool (b : Bool)
  | num (n : Int)
  | str (s : String)
  | arr (elems : List Json)
  | obj (members : List (String × Json))

/-- A decoded time-series bar.  The Go struct `TimeSale`'s field list is
declared outside src/ and never inspected by the logic under proof, so a
decoded value just retains its JSON object members. -/
structure TimeSale where
  members : List (String × Json)

/-- `json.Unmarshal` into a `TimeSale` struct: succeeds on a JSON object
(ignoring unknown keys) and on `null` (leaving the zero value), fails on
any other JSON kind. -/
def unmarshalTimeSale : Json → Except String TimeSale
  | .obj ms => .ok ⟨ms⟩
  | .null => .ok ⟨[]⟩
  | _ => .error "json: cannot unmarshal value into Go value of type tradier.TimeSale"

/-- `json.Unmarshal` into `[]TimeSale`: a JSON array decoded elementwise
(failing if any element fails), `null` leaving the pre-initialized empty
slice, anything else failing. -/
def unmarshalTimeSaleSlice : Json → Except String (List TimeSale)
  | .arr es => es.mapM unmarshalTimeSale
  | .null => .ok []
  | _ => .error "json: cannot unmarshal value into Go value of type []tradier.TimeSale"

/-- One `json.Unmarshal(data, &ts)` call on a raw payload. -/
def goUnmarshalOne (data : Option Json) : Except String TimeSale :=
  match data with
  | none => .error "invalid character in JSON input"
  | some j => unmarshalTimeSale j

/-- One `json.Unmarshal(data, &tss)` call on a raw payload. -/
def goUnmarshalMany (data : Option Json) : Except String (List TimeSale) :=
  match data with
  | none => .error "invalid character in JSON input"
  | some j => unmarshalTimeSaleSlice j

/-- `timeSaleList.UnmarshalJSON`: try the list first; if that fails, try a
single object, wrapping it as a one-element list; if that fails too, return
the single-object attempt's error.  (No aborting path exists here.) -/
def timeSaleListUnmarshalJSON (data : Option Json) : Except String (List TimeSale) :=
  match goUnmarshalMany data with
  | .ok tss => .ok tss
  | .error _ =>
    match goUnmarshalOne data with
    | .ok ts => .ok [ts]
    | .error e => .error e

/-- Result of a Go function that can terminate the process: either a value
or a `panic`. -/
inductive GoOutcome (α : Type) where
  | ok (value : α)
  | panicked (msg : String)

/-- `oneToInfinity`: reflection-generic in the source, instantiated at the
abstract element type here.  A single instance is attempted first and
wrapped as a one-element slice; then an array, returned verbatim; when both
decodings fail the source calls `panic(err)` with the second (array)
attempt's error. -/
def oneToInfinity (data : Option Json) : GoOutcome (List TimeSale) :=
  match goUnmarshalOne data with
  | .ok x => .ok [x]
  | .error _ =>
    match goUnmarshalMany data with
    | .ok xs => .ok xs
    | .error e => .panicked e

/-! ## Interval bisection and `GetTimeSales` -/

/-- `bisect` from the time-series client: an unset (zero) `end` is replaced
by the current instant, and the midpoint is `start + delta/2` with Go's
truncating `time.Duration` division. -/
def bisect (now start end_ : GoTime) : GoTime :=
  let e := if end_ = zeroTime then now else end_
  start + (e - start).tdiv 2

/-- `time.Duration(1 * time.Minute)`. -/
def oneMinute : GoDuration := 60 * nsPerSec

/-- `Client.GetTimeSales` for a fixed symbol and interval.  `doer start end`
is the combined effect of `tc.do` on the URL for `[start, end]` followed by
`decodeTimeSales` on a 200 response: `.ok sales` on success and `.error` on
any error `tc.do` or the decoder surfaces.  `now` is the call-time clock
read by `bisect`.  `fuel` bounds the recursion depth (the Go source
recurses unboundedly; `none` reports fuel exhaustion and is not a behaviour
of the source).  On an error that type-asserts to `TradierError` and
carries exactly the `ErrBodyBufferOverflow` code, the range is split at
`bisect start end` unless `end - middle` is under one minute — the check
reads the raw `end`, not the effective one used by `bisect`. -/
def getTimeSales (doer : GoTime → GoTime → Except GoError (List TimeSale)) (now : GoTime) :
    Nat → GoTime → GoTime → Option (Except GoError (List TimeSale))
  | 0, _, _ => none
  | fuel + 1, start, end_ =>
    match doer start end_ with
    | .ok sales => some (.ok sales)
    | .error err =>
      match err with
      | .tradier te =>
        if te.fault.errorCode = ErrBodyBufferOverflow then
          let middle := bisect now start end_
          if end_ - middle < oneMinute then some (.error err)
          else
            match getTimeSales doer now fuel start middle with
            | none => none
            | some (.error e1) => some (.error e1)
            | some (.ok firstHalf) =>
              match getTimeSales doer now fuel middle end_ with
              | none => none
              | some (.error e2) => some (.error e2)
              | some (.ok secondHalf) => some (.ok (firstHalf ++ secondHalf))
        else some (.error err)
      | .plain _ => some (.error err)

/-! ## Claim C8: interval bisection -/

/-- C8, amended: for a set (non-zero) `end` above `start`, `bisect` returns
`start + (end - start)/2`, and this lies strictly between `start` and `end`
whenever they are at least 2ns apart (with a 1ns gap the midpoint collapses
onto `start`: see the counterexample); with `end` unset (zero) the midpoint
is computed against the call-time clock as effective end. -/
theorem bisect_spec (now start e : Int) :
    (e ≠ zeroTime → start < e →
      bisect now start e = start + (e - start).tdiv 2 ∧
      (start + 2 ≤ e → start < bisect now start e ∧ bisect now start e < e)) ∧
    bisect now start zeroTime = start + (now - start).tdiv 2 := by
  constructor
  · intro hne hlt
    have heq : bisect now start e = start + (e - start).tdiv 2 := by
      unfold bisect
      rw [if_neg hne]
    refine ⟨heq, ?_⟩
    intro hgap
    rw [heq]
    have hd : (e - start).tdiv 2 = (e - start) / 2 :=
      @Int.tdiv_eq_ediv (e - start) 2 (by omega) (by norm_num)
    rw [hd]
    constructor
    · show (start : Int) < start + (e - start) / 2
      omega
    · show start + (e - start) / 2 < (e : Int)
      omega
  · unfold bisect
    rw [if_pos rfl]

/-- C8 witness: `bisect_spec` at `start = 10`, `end = 30` (midpoint 20,
strictly inside) and at an unset end with `now = 100`, `start = 40`. -/
theorem bisect_spec_witness :
    bisect 0 10 30 = 10 + ((30 : Int) - 10).tdiv 2 ∧
    (10 : Int) < bisect 0 10 30 ∧ bisect 0 10 30 < 30 ∧
    bisect 100 40 zeroTime = 40 + ((100 : Int) - 40).tdiv 2 := by
  obtain ⟨h1, h2⟩ := (bisect_spec 0 10 30).1 (by decide) (by decide)
  obtain ⟨h3, h4⟩ := h2 (by decide)
  exact ⟨h1, h3, h4, (bisect_spec 100 40 0).2⟩

/-- C8 counterexample: with `start = 0` and `end = 1` (1ns apart, so
`start < end`), the midpoint equals `start` — the claim's unquantified
"lies strictly between start and end" fails. -/
theorem bisect_counterexample :
    (0 : GoTime) < 1 ∧ bisect 100 0 1 = 0 ∧
    ¬ ((0 : GoTime) < bisect 100 0 1 ∧ bisect 100 0 1 < 1) := by
  refine ⟨by decide, by decide, ?_⟩
  intro h
  rw [show bisect 100 0 1 = 0 from by decide] at h
  exact absurd h.1 (by decide)

/-! ## Claim C3: the recursion floor reads the raw `end` -/

/-- C3, evaluated at the failing input: `end` unset (zero), `start` ten
minutes before `now = 1200000000000`.  The effective end is `now`, the
midpoint is `900000000000`, and the effective second half spans
`300000000000` ns — five minutes, well above the one-minute floor — yet
`GetTimeSales` surfaces the oversized-body fault without splitting, because
the floor check computes `end.Sub(middle)` from the raw zero `end`
(a negative duration, always below one minute). -/
theorem getTimeSales_unset_end_never_splits :
    getTimeSales (fun _ _ => .error (.tradier ⟨413, ⟨"too big", ErrBodyBufferOverflow⟩⟩))
        1200000000000 5 600000000000 zeroTime =
      some (.error (.tradier ⟨413, ⟨"too big", ErrBodyBufferOverflow⟩⟩)) ∧
    bisect 1200000000000 600000000000 zeroTime = 900000000000 ∧
    (1200000000000 : GoTime) - 900000000000 = 300000000000 ∧
    oneMinute ≤ 300000000000 := by
  exact ⟨rfl, by decide, by decide, by decide⟩

/-! ## Claim C4: splitting on the oversized-body fault -/

/-- C4: when the executor reports a `TradierError` carrying exactly the
oversized-body code and the recursion floor is not reached, `GetTimeSales`
fetches the two halves split at the midpoint and, both succeeding, returns
the first half's bars followed by the second half's; and any error that is
not a `TradierError` with the oversized-body code propagates unchanged,
with no recursive call. -/
theorem getTimeSales_split_and_propagate :
    (∀ (doer : GoTime → GoTime → Except GoError (List TimeSale)) (now : GoTime)
      (fuel : Nat) (start e : GoTime) (te : TradierError) (r1 r2 : List TimeSale),
      doer start e = .error (.tradier te) →
      te.fault.errorCode = ErrBodyBufferOverflow →
      ¬ (e - bisect now start e < oneMinute) →
      getTimeSales doer now fuel start (bisect now start e) = some (.ok r1) →
      getTimeSales doer now fuel (bisect now start e) e = some (.ok r2) →
      getTimeSales doer now (fuel + 1) start e = some (.ok (r1 ++ r2))) ∧
    (∀ (doer : GoTime → GoTime → Except GoError (List TimeSale)) (now : GoTime)
      (fuel : Nat) (start e : GoTime) (err : GoError),
      doer start e = .error err →
      (∀ te, err = GoError.tradier te → te.fault.errorCode ≠ ErrBodyBufferOverflow) →
      getTimeSales doer now (fuel + 1) start e = some (.error err)) := by
  constructor
  · intro doer now fuel start e te r1 r2 hdo hcode hfloor h1 h2
    simp [getTimeSales, hdo, hcode, if_neg hfloor, h1, h2]
  · intro doer now fuel start e err hdo hnotbig
    cases err with
    | tradier te =>
      have hne : te.fault.errorCode ≠ ErrBodyBufferOverflow := hnotbig te rfl
      simp [getTimeSales, hdo, hne]
    | plain m =>
      simp [getTimeSales, hdo]

/-- C4 witness: a transport whose full four-minute range answers with the
oversized-body fault and whose halves succeed with one bar each merges the
halves in order; a non-oversized error propagates untouched. -/
theorem getTimeSales_split_witness :
    getTimeSales
        (fun s e => if e - s = 240000000000
          then .error (.tradier ⟨413, ⟨"big", ErrBodyBufferOverflow⟩⟩)
          else .ok [⟨[]⟩])
        0 2 0 240000000000 = some (.ok ([⟨[]⟩] ++ [⟨[]⟩])) ∧
    getTimeSales (fun _ _ => .error (.plain "boom")) 0 3 0 240000000000 =
      some (.error (.plain "boom")) := by
  constructor
  · exact getTimeSales_split_and_propagate.1
      (fun s e => if e - s = 240000000000
        then .error (.tradier ⟨413, ⟨"big", ErrBodyBufferOverflow⟩⟩)
        else .ok [⟨[]⟩])
      0 1 0 240000000000 ⟨413, ⟨"big", ErrBodyBufferOverflow⟩⟩ [⟨[]⟩] [⟨[]⟩]
      rfl rfl (by decide) rfl rfl
  · exact getTimeSales_split_and_propagate.2 (fun _ _ => .error (.plain "boom"))
      0 2 0 240000000000 (.plain "boom") rfl (fun te h => by cases h)

/-! ## Claim C5: `oneToInfinity` panics on double decode failure -/

/-- C5, evaluated at the failing inputs: on a payload that decodes neither
as a single object nor as an array — malformed bytes, or a JSON value of
another kind — `oneToInfinity` panics (aborting the process) with the
second (array) attempt's error, instead of returning a decode error to the
caller; the success paths behave as the claim says. -/
theorem oneToInfinity_panics :
    oneToInfinity none = .panicked "invalid character in JSON input" ∧
    oneToInfinity (some (.str "x")) =
      .panicked "json: cannot unmarshal value into Go value of type []tradier.TimeSale" ∧
    oneToInfinity (some (.obj [("price", .num 42)])) = .ok [⟨[("price", .num 42)]⟩] ∧
    oneToInfinity (some (.arr [.obj [], .obj []])) = .ok [⟨[]⟩, ⟨[]⟩] := by
  exact ⟨rfl, rfl, rfl, rfl⟩

/-! ## Claim C10: `timeSaleList.UnmarshalJSON` tries the list first -/

/-- C10: the time-series decoder attempts the array decoding first and
returns a successful array verbatim; only on failure does it attempt a
single object, wrapped as a one-element list; when both fail it returns the
single-object attempt's error (its result type has no aborting outcome).
The concrete conjuncts pin the order: an object payload takes the
single-object path, and a payload failing both ways reports the
single-object error message, not the array one. -/
theorem timeSaleList_array_first :
    (∀ (data : Option Json) (xs : List TimeSale),
      goUnmarshalMany data = .ok xs → timeSaleListUnmarshalJSON data = .ok xs) ∧
    (∀ (data : Option Json) (e1 : String) (ts : TimeSale),
      goUnmarshalMany data = .error e1 → goUnmarshalOne data = .ok ts →
      timeSaleListUnmarshalJSON data = .ok [ts]) ∧
    (∀ (data : Option Json) (e1 e2 : String),
      goUnmarshalMany data = .error e1 → goUnmarshalOne data = .error e2 →
      timeSaleListUnmarshalJSON data = .error e2) ∧
    timeSaleListUnmarshalJSON (some (.arr [.obj [("a", .num 1)]])) =
      .ok [⟨[("a", .num 1)]⟩] ∧
    timeSaleListUnmarshalJSON (some (.obj [("a", .num 1)])) = .ok [⟨[("a", .num 1)]⟩] ∧
    timeSaleListUnmarshalJSON (some (.str "x")) =
      .error "json: cannot unmarshal value into Go value of type tradier.TimeSale" := by
  refine ⟨?_, ?_, ?_, rfl, rfl, rfl⟩
  · intro data xs h
    simp [timeSaleListUnmarshalJSON, h]
  · intro data e1 ts h1 h2
    simp [timeSaleListUnmarshalJSON, h1, h2]
  · intro data e1 e2 h1 h2
    simp [timeSaleListUnmarshalJSON, h1, h2]

/-- C10 witness: `timeSaleList_array_first` applied at concrete payloads
for each of the three dispatch outcomes. -/
theorem timeSaleList_array_first_witness :
    timeSaleListUnmarshalJSON (some (.arr [])) = .ok [] ∧
    timeSaleListUnmarshalJSON (some (.obj [("b", .bool true)])) = .ok [⟨[("b", .bool true)]⟩] ∧
    timeSaleListUnmarshalJSON none = .error "invalid character in JSON input" := by
  refine ⟨timeSaleList_array_first.1 (some (.arr [])) [] rfl, ?_, ?_⟩
  · exact timeSaleList_array_first.2.1 (some (.obj [("b", .bool true)]))
      "json: cannot unmarshal value into Go value of type []tradier.TimeSale"
      ⟨[("b", .bool true)]⟩ rfl rfl
  · exact timeSaleList_array_first.2.2.1 none "invalid character in JSON input"
      "invalid character in JSON input" rfl rfl

/-! ## The timestamp parser `DateTime.Set`

The `DateTime` type and its `Set`/`UnmarshalJSON`/`ParseTimeMs` parsers are
declared outside src/; only their tests are in src/.  The parser is
modelled from the spec below and pinned by those tests.  Instants here are
milliseconds since the Unix epoch (the finest granularity the formats
produce), so Unix seconds are the value divided by 1000. -/

/-- A piece of a reference layout: a fixed-width decimal number or a
literal separator character. -/
inductive LayoutPiece where
  | digits (k : Nat)
  | lit (c : Char)

/-- Reads exactly `k` leading decimal digits, accumulating their value. -/
def takeDigitsAux : Nat → Nat → List Char → Option (Nat × List Char)
  | acc, 0, l => some (acc, l)
  | _, _ + 1, [] => none
  | acc, k + 1, c :: cs =>
    if c.isDigit then takeDigitsAux (acc * 10 + (c.toNat - 48)) k cs else none

def takeDigits (k : Nat) (l : List Char) : Option (Nat × List Char) :=
  takeDigitsAux 0 k l

/-- Matches a whole layout against the input, requiring it consumed
exactly, and returns the numeric groups in order. -/
def runLayout : List LayoutPiece → List Char → Option (List Nat)
  | [], l => if l = [] then some [] else none
  | .digits k :: ps, l =>
    match takeDigits k l with
    | none => none
    | some (v, l') => (runLayout ps l').map fun vs => v :: vs
  | .lit c :: ps, l =>
    match l with
    | [] => none
    | x :: xs => if x = c then runLayout ps xs else none

/-- Proleptic-Gregorian day number relative to 1970-01-01 (the
Fliegel–Van Flandern Julian-day formula, truncating division, shifted by
the Unix epoch's Julian day 2440588). -/
def daysFromCivil (y m d : Int) : Int :=
  let a := (m - 14).tdiv 12
  (1461 * (y + 4800 + a)).tdiv 4 + (367 * (m - 2 - 12 * a)).tdiv 12
    - (3 * ((y + 4900 + a).tdiv 100)).tdiv 4 + d - 32075 - 2440588

def isLeap (y : Int) : Bool := y % 4 = 0 && (y % 100 != 0 || y % 400 = 0)

def daysInMonth (y m : Int) : Int :=
  if m = 2 then (if isLeap y then 29 else 28)
  else if m = 4 ∨ m = 6 ∨ m = 9 ∨ m = 11 then 30 else 31

def validDate (y mo d : Nat) : Bool :=
  1 ≤ mo && mo ≤ 12 && 1 ≤ d && (d : Int) ≤ daysInMonth (y : Int) (mo : Int)

/-- Modelled from the spec: format 1 of `DateTime.Set`, the full naive
date-time `"2006-01-02T15:04:05"` interpreted in UTC (with Go's calendar
and range validation). -/
def parseFullDateTime (l : List Char) : Option Int := do
  let vs ← runLayout [.digits 4, .lit '-', .digits 2, .lit '-', .digits 2, .lit 'T',
    .digits 2, .lit ':', .digits 2, .lit ':', .digits 2] l
  match vs with
  | [y, mo, d, h, mi, s] => do
    guard (validDate y mo d ∧ h ≤ 23 ∧ mi ≤ 59 ∧ s ≤ 59)
    pure ((daysFromCivil y mo d * 86400 + (h : Int) * 3600 + (mi : Int) * 60 + s) * 1000)
  | _ => none

/-- Modelled from the spec: format 2 of `DateTime.Set`, the date-only
layout `"2006-01-02"` at midnight UTC. -/
def parseDateOnly (l : List Char) : Option Int := do
  let vs ← runLayout [.digits 4, .lit '-', .digits 2, .lit '-', .digits 2] l
  match vs with
  | [y, mo, d] => do
    guard (validDate y mo d)
    pure (daysFromCivil y mo d * 86400 * 1000)
  | _ => none

/-- Modelled from the spec: format 3 of `DateTime.Set`, the time-only
layout `"15:04"`, anchored to Go's parse default date (January 1 of year
0) — the anchoring pinned by the test value `-62167164960`. -/
def parseClock (l : List Char) : Option Int := do
  let vs ← runLayout [.digits 2, .lit ':', .digits 2] l
  match vs with
  | [h, mi] => do
    guard (h ≤ 23 ∧ mi ≤ 59)
    pure ((daysFromCivil 0 1 1 * 86400 + (h : Int) * 3600 + (mi : Int) * 60) * 1000)
  | _ => none

/-- Modelled from the spec: `DateTime.Set` tries the fixed format order —
full date-time, date-only, time-only, bare integer milliseconds since the
Unix epoch — first match winning, and fails with a parse error when none
matches.  (`DateTime` itself lives outside src/; the tests in src/ pin the
behaviour.) -/
def dateTimeSet (s : String) : Except String Int :=
  match parseFullDateTime s.toList with
  | some t => .ok t
  | none =>
    match parseDateOnly s.toList with
    | some t => .ok t
    | none =>
      match parseClock s.toList with
      | some t => .ok t
      | none =>
        match goParseInt64 s with
        | some ms => .ok ms
        | none => .error ("parsing time " ++ s ++ ": invalid format")

-- sanity checks against the tests in src/
example : dateTimeSet "2006-01-02T15:04:05" = .ok (1136214245 * 1000) := rfl
example : dateTimeSet "2006-01-02" = .ok (1136160000 * 1000) := rfl
example : dateTimeSet "15:04" = .ok (-62167164960 * 1000) := rfl
example : dateTimeSet "123456" = .ok 123456 := rfl
example : dateTimeSet "not a time" = .error "parsing time not a time: invalid format" := rfl

/-! ## Claim C9: lemmas on digit strings and the layout matcher -/

/-- Characters produced by `Nat.toDigitsCore 10` over a digit accumulator
are decimal digits. -/
theorem toDigitsCore_all_digit :
    ∀ (fuel n : Nat) (ds : List Char), (∀ c ∈ ds, c.isDigit = true) →
      ∀ c ∈ Nat.toDigitsCore 10 fuel n ds, c.isDigit = true := by
  intro fuel
  induction fuel with
  | zero => intro n ds hds; simpa [Nat.toDigitsCore] using hds
  | succ fuel ih =>
    intro n ds hds c hc
    have hdigit : (Nat.digitChar (n % 10)).isDigit = true :=
      (digitChar_spec (Nat.mod_lt _ (by norm_num))).1
    by_cases hdiv : n / 10 = 0
    · simp only [Nat.toDigitsCore, hdiv, if_pos] at hc
      rcases List.mem_cons.mp hc with h | h
      · exact h ▸ hdigit
      · exact hds c h
    · have hstep : Nat.toDigitsCore 10 (fuel + 1) n ds =
          Nat.toDigitsCore 10 fuel (n / 10) (Nat.digitChar (n % 10) :: ds) := by
        simp [Nat.toDigitsCore, hdiv]
      rw [hstep] at hc
      refine ih (n / 10) _ ?_ c hc
      intro c' hc'
      rcases List.mem_cons.mp hc' with h | h
      · exact h ▸ hdigit
      · exact hds c' h

/-- `strconv.ParseInt` recovers `n` from its decimal numeral whenever `n`
fits in an `int64`. -/
theorem goParseInt64_repr (n : Nat) (h : n ≤ maxInt64) :
    goParseInt64 (Nat.repr n) = some (n : Int) := by
  obtain ⟨d, rest, hshape, hd⟩ :=
    toDigitsCore_head_digit (n + 1) n (nat_lt_ten_pow_succ n) (Nat.le_add_left 1 n) []
  have hds := digitChar_spec hd
  have htoList : (Nat.repr n).toList = Nat.digitChar d :: rest := hshape
  rw [goParseInt64_cons _ _ _ htoList]
  rw [if_neg hds.2.2.2.1, if_neg hds.2.2.2.2]
  have hpd : parseDigits (Nat.digitChar d :: rest) =
      parseDigitsAux 0 (Nat.digitChar d :: rest) := rfl
  have hparse : parseDigitsAux 0 (Nat.toDigitsCore 10 (n + 1) n []) = some n := by
    rw [parseDigitsAux_toDigitsCore (n + 1) n (nat_lt_ten_pow_succ n)]
    rfl
  rw [hpd, ← hshape, hparse]
  simp only [Option.some_bind]
  rw [if_pos h]

theorem takeDigitsAux_short :
    ∀ (k acc : Nat) (l : List Char), l.length < k → takeDigitsAux acc k l = none := by
  intro k
  induction k with
  | zero => intro acc l h; omega
  | succ k ih =>
    intro acc l h
    cases l with
    | nil => rfl
    | cons c cs =>
      by_cases hc : c.isDigit = true
      · have : cs.length < k := by simpa using h
        simp [takeDigitsAux, hc, ih _ cs this]
      · simp [takeDigitsAux, hc]

theorem takeDigitsAux_digits :
    ∀ (k acc : Nat) (l : List Char), (∀ c ∈ l, c.isDigit = true) → k ≤ l.length →
      ∃ v, takeDigitsAux acc k l = some (v, l.drop k) := by
  intro k
  induction k with
  | zero => intro acc l _ _; exact ⟨acc, rfl⟩
  | succ k ih =>
    intro acc l hdig hlen
    cases l with
    | nil => simp at hlen
    | cons c cs =>
      have hc : c.isDigit = true := hdig c (List.mem_cons_self c cs)
      have hlen' : k ≤ cs.length := by simpa using hlen
      obtain ⟨v, hv⟩ := ih (acc * 10 + (c.toNat - 48)) cs
        (fun x hx => hdig x (List.mem_cons_of_mem _ hx)) hlen'
      exact ⟨v, by simp [takeDigitsAux, hc, hv]⟩

/-- A layout whose first literal separator is a non-digit never matches an
all-digit input. -/
theorem runLayout_digits_fail (c : Char) (hc : c.isDigit = false) :
    ∀ (ks : List Nat) (rest : List LayoutPiece) (l : List Char),
      (∀ x ∈ l, x.isDigit = true) →
      runLayout (ks.map LayoutPiece.digits ++ LayoutPiece.lit c :: rest) l = none := by
  intro ks
  induction ks with
  | nil =>
    intro rest l hl
    cases l with
    | nil => rfl
    | cons x xs =>
      by_cases hxc : x = c
      · exact absurd (hxc ▸ hl x (List.mem_cons_self x xs)) (by rw [hc]; decide)
      · simp [runLayout, hxc]
  | cons k ks ih =>
    intro rest l hl
    rcases Nat.lt_or_ge l.length k with hlen | hlen
    · have : takeDigits k l = none := takeDigitsAux_short k 0 l hlen
      simp [runLayout, takeDigits] at this ⊢
      simp [this]
    · obtain ⟨v, hv⟩ := takeDigitsAux_digits k 0 l hl hlen
      have hdrop : ∀ x ∈ l.drop k, x.isDigit = true :=
        fun x hx => hl x (List.mem_of_mem_drop hx)
      simp only [List.map_cons, List.cons_append, runLayout, takeDigits, hv,
        List.append_eq, ih rest (l.drop k) hdrop]
      rfl

/-- `Nat.repr n` is a nonempty all-digit string. -/
theorem repr_all_digit (n : Nat) : ∀ c ∈ (Nat.repr n).toList, c.isDigit = true := by
  intro c hc
  exact toDigitsCore_all_digit (n + 1) n [] (by intro x hx; cases hx) c hc

/-- C9 (spec-modelled): the timestamp parser tries the formats in the fixed
order full date-time, date-only, time-only, bare-integer milliseconds since
the Unix epoch, first match winning: `"2006-01-02T15:04:05"` parses to Unix
second 1136214245, `"2006-01-02"` to 1136160000, `"15:04"` to -62167164960
(the instant being the Unix second times 1000 in the millisecond scale), a
bare integer numeral parses to exactly that many milliseconds since the
epoch (never matching the three date layouts, which all demand a non-digit
separator), and input matching no format is a parse error. -/
theorem dateTimeSet_spec :
    dateTimeSet "2006-01-02T15:04:05" = .ok (1136214245 * 1000) ∧
    dateTimeSet "2006-01-02" = .ok (1136160000 * 1000) ∧
    dateTimeSet "15:04" = .ok (-62167164960 * 1000) ∧
    (∀ n : Nat, n ≤ maxInt64 → dateTimeSet (Nat.repr n) = .ok (n : Int)) ∧
    (∀ s : String, parseFullDateTime s.toList = none → parseDateOnly s.toList = none →
      parseClock s.toList = none → goParseInt64 s = none →
      dateTimeSet s = .error ("parsing time " ++ s ++ ": invalid format")) := by
  refine ⟨rfl, rfl, rfl, ?_, ?_⟩
  · intro n hn
    have hdig := repr_all_digit n
    have h1 : runLayout [.digits 4, .lit '-', .digits 2, .lit '-', .digits 2, .lit 'T',
        .digits 2, .lit ':', .digits 2, .lit ':', .digits 2] (Nat.repr n).data = none :=
      runLayout_digits_fail '-' rfl [4]
        [.digits 2, .lit '-', .digits 2, .lit 'T', .digits 2, .lit ':', .digits 2, .lit ':',
          .digits 2] (Nat.repr n).data hdig
    have h2 : runLayout [.digits 4, .lit '-', .digits 2, .lit '-', .digits 2]
        (Nat.repr n).data = none :=
      runLayout_digits_fail '-' rfl [4] [.digits 2, .lit '-', .digits 2]
        (Nat.repr n).data hdig
    have h3 : runLayout [.digits 2, .lit ':', .digits 2] (Nat.repr n).data = none :=
      runLayout_digits_fail ':' rfl [2] [.digits 2] (Nat.repr n).data hdig
    simp [dateTimeSet, parseFullDateTime, parseDateOnly, parseClock, h1, h2, h3,
      goParseInt64_repr n hn]
  · intro s ha hb hc hd
    have ha2 : parseFullDateTime s.data = none := ha
    have hb2 : parseDateOnly s.data = none := hb
    have hc2 : parseClock s.data = none := hc
    simp [dateTimeSet, ha2, hb2, hc2, hd]

/-- C9 witness: `dateTimeSet_spec` applied at the numeral 123456 and at an
input matching no format. -/
theorem dateTimeSet_spec_witness :
    dateTimeSet (Nat.repr 123456) = .ok (123456 : Int) ∧
    dateTimeSet "garbage" = .error "parsing time garbage: invalid format" := by
  constructor
  · exact dateTimeSet_spec.2.2.2.1 123456 (by decide)
  · exact dateTimeSet_spec.2.2.2.2 "garbage" rfl rfl rfl rfl

end Tradier
